import Mathlib

/-!
Verification development for the Spotify extended-history scrobbler
(src/spotify_lastfm_scrobbler.py).  The Python functions that the claims
concern are shallowly embedded as executable Lean definitions:

* machine integers are modelled as `Int`/`Nat` (Python ints are unbounded);
* Python `datetime` instants are modelled as integer UTC epoch seconds, and
  `datetime.fromisoformat` is modelled by an explicit civil-calendar parser
  together with the standard days-from-civil formula ;
* the process-local wall clock (`datetime.now`) and the host's local time
  zone (used by `astimezone` on naive datetimes) are passed in explicitly as
  the parameters `now` (epoch seconds) and `localOffMin` (minutes east of
  UTC, modelled as a fixed offset);
* Python dicts built in insertion order are modelled as association lists;
* record dictionaries are modelled by the structure `Entry` whose fields are
  the ones the program reads, with `Option` for possibly-absent values and
  Python truthiness modelled explicitly where the code relies on it;
* `hashlib.md5` is kept abstract: `dataset_signature` takes the digest
  function as an explicit parameter `h : String → String`.
-/

/-- Value of the `ts` field of a history record: an ISO string, a numeric
epoch (`int`/`float`, already truncated to an integer), an aware `datetime`
(modelled by its UTC epoch seconds), or absent. -/
inductive TsVal where
  | str (s : String)
  | num (n : Int)
  | dtm (epoch : Int)
  | absent
deriving DecidableEq

/-- A raw history record: the dictionary fields read by the program.
`ts_override` models the `"_ts_override"` key written by import mode. -/
structure Entry where
  master_metadata_album_artist_name : Option String := none
  master_metadata_track_name : Option String := none
  master_metadata_album_album_name : Option String := none
  ms_played : Option Int := none
  ts : TsVal := .absent
  offline_timestamp : Option Int := none
  timestamp : Option Int := none
  ts_override : Option Int := none
  episode_name : Option String := none
  episode_show_name : Option String := none
  audiobook_title : Option String := none
  audiobook_uri : Option String := none
  incognito_mode : Option Bool := none
  is_private_session : Option Bool := none
deriving DecidableEq

/-- Python `a or b` on optional integers: `a` when present and nonzero
(truthy), otherwise `b`. -/
def pyOr (a b : Option Int) : Option Int :=
  match a with
  | some n => if n = 0 then b else some n
  | none => b

/-- Python truthiness of an optional string: present and nonempty. -/
def pyTruthyStr : Option String → Bool
  | some s => !s.isEmpty
  | none => false

/-- Numeric value of a decimal digit character. -/
def digitVal (c : Char) : Option Nat :=
  if c.isDigit then some (c.toNat - 48) else none

/-- Two-digit decimal number. -/
def d2 (a b : Char) : Option Nat := do
  pure ((← digitVal a) * 10 + (← digitVal b))

/-- Four-digit decimal number. -/
def d4 (a b c d : Char) : Option Nat := do
  pure (((← digitVal a) * 10 + (← digitVal b)) * 100 + ((← digitVal c) * 10 + (← digitVal d)))

/-- Gregorian leap-year rule, as used by Python `datetime` validation. -/
def isLeap (y : Nat) : Bool :=
  y % 4 = 0 && (y % 100 != 0 || y % 400 = 0)

/-- Days in a month, for `fromisoformat` day-of-month validation. -/
def daysInMonth (y m : Nat) : Nat :=
  match m with
  | 1 => 31 | 2 => if isLeap y then 29 else 28 | 3 => 31 | 4 => 30
  | 5 => 31 | 6 => 30 | 7 => 31 | 8 => 31
  | 9 => 30 | 10 => 31 | 11 => 30 | 12 => 31
  | _ => 0

/-- A naive civil timestamp as parsed from an ISO-8601 string. -/
structure Civil where
  year : Nat
  month : Nat
  day : Nat
  hour : Nat
  minute : Nat
  second : Nat
deriving DecidableEq

/-- Parse an optional trailing UTC offset `+HH:MM` / `-HH:MM` (minutes). -/
def parseOffsetPart : List Char → Option (Option Int)
  | [] => some none
  | '+' :: a :: b :: ':' :: c :: d :: [] => do
      let hh ← d2 a b
      let mm ← d2 c d
      if hh < 24 ∧ mm < 60 then pure (some ((hh * 60 + mm : Nat) : Int)) else none
  | '-' :: a :: b :: ':' :: c :: d :: [] => do
      let hh ← d2 a b
      let mm ← d2 c d
      if hh < 24 ∧ mm < 60 then pure (some (-((hh * 60 + mm : Nat) : Int))) else none
  | _ => none

/-- Parse the optional `THH:MM:SS[±HH:MM]` part of an ISO-8601 string. -/
def parseTimePart : List Char → Option (Nat × Nat × Nat × Option Int)
  | [] => some (0, 0, 0, none)
  | 'T' :: h1 :: h2 :: ':' :: m1 :: m2 :: ':' :: s1 :: s2 :: rest => do
      let h ← d2 h1 h2
      let mi ← d2 m1 m2
      let s ← d2 s1 s2
      if h < 24 ∧ mi < 60 ∧ s < 60 then
        (parseOffsetPart rest).map fun off => (h, mi, s, off)
      else none
  | _ => none

/-- Model of `datetime.fromisoformat` on the string shapes the program
feeds it: `YYYY-MM-DD` optionally followed by `THH:MM:SS` and an optional
`±HH:MM` offset.  Returns the civil fields and the offset in minutes when
one was present (the datetime is aware), `none` on a malformed string
(Python raises `ValueError`). -/
def fromisoformat (s : String) : Option (Civil × Option Int) :=
  match s.data with
  | y1 :: y2 :: y3 :: y4 :: '-' :: m1 :: m2 :: '-' :: dd1 :: dd2 :: rest => do
      let y ← d4 y1 y2 y3 y4
      let m ← d2 m1 m2
      let d ← d2 dd1 dd2
      if 1 ≤ y ∧ 1 ≤ m ∧ m ≤ 12 ∧ 1 ≤ d ∧ d ≤ daysInMonth y m then
        (parseTimePart rest).map fun t => (⟨y, m, d, t.1, t.2.1, t.2.2.1⟩, t.2.2.2)
      else none
  | _ => none

/-- Days since 1970-01-01 of a civil date (standard civil-from-days
inverse, modelling `datetime.timestamp` for a UTC datetime). -/
def daysFromCivil (y m d : Int) : Int :=
  let y := if m ≤ 2 then y - 1 else y
  let era := Int.fdiv y 400
  let yoe := y - era * 400
  let doy := Int.fdiv (153 * (m + (if m > 2 then -3 else 9)) + 2) 5 + d - 1
  let doe := yoe * 365 + Int.fdiv yoe 4 - Int.fdiv yoe 100 + doy
  era * 146097 + doe - 719468

/-- UTC epoch seconds of a civil timestamp read as UTC. -/
def epochOfCivil (c : Civil) : Int :=
  daysFromCivil c.year c.month c.day * 86400
    + (c.hour : Int) * 3600 + (c.minute : Int) * 60 + (c.second : Int)

/-- Lowercasing of an ASCII character, modelling Python `str.lower` on the
strings the program compares (`"now"`, file paths). -/
def lowerChar (c : Char) : Char :=
  if 'A' ≤ c ∧ c ≤ 'Z' then Char.ofNat (c.toNat + 32) else c

/-- Python `str.lower`, over the string's characters. -/
def strLower (s : String) : String := ⟨s.data.map lowerChar⟩

/-- Embedding of `parse_spotify_iso` (line 115) composed with the
`astimezone(utc)` conversion done by its callers: trailing `Z` is first
rewritten to `+00:00`; an aware result is converted using its own offset,
a naive result using the host's local offset `localOffMin`. -/
def parse_spotify_iso (localOffMin : Int) (s : String) : Option Int :=
  let s : String :=
    if s.data.getLast? = some 'Z' then ⟨s.data.dropLast ++ ('+' :: '0' :: '0' :: ':' :: '0' :: '0' :: [])⟩
    else s
  (fromisoformat s).map fun ci => epochOfCivil ci.1 - (ci.2.getD localOffMin) * 60

/-- Embedding of `dt.datetime.fromisoformat(x).replace(tzinfo=utc).timestamp()`
as used by `within_range` and the resume state: `replace` discards any parsed
offset, so the civil fields are read as UTC. -/
def iso_replace_utc_epoch (s : String) : Option Int :=
  (fromisoformat s).map fun ci => epochOfCivil ci.1

/-- Embedding of `compute_start_timestamp` (lines 284-321).  `now` is the
wall-clock instant used by the `datetime.now` fallbacks. -/
def compute_start_timestamp (now localOffMin : Int) (e : Entry) : Int :=
  let ms : Int := e.ms_played.getD 0
  let start : Int :=
    match e.ts with
    | .num n => n - Int.fdiv ms 1000
    | .dtm t => t - Int.fdiv ms 1000
    | .str s =>
        (match parse_spotify_iso localOffMin s with
         | some endEpoch => endEpoch
         | none => now) - Int.fdiv ms 1000
    | .absent => now
  match e.offline_timestamp with
  | some off =>
      if off = 0 then start
      else if (off - start).natAbs ≤ 7 * 24 * 3600 then off else start
  | none => start

/-- The parsed end instant of a record, when its end marker `ts` is present
and parseable: the quantity `compute_start_timestamp` subtracts the played
seconds from (lines 296-307). -/
def end_marker_epoch (localOffMin : Int) (e : Entry) : Option Int :=
  match e.ts with
  | .num n => some n
  | .dtm t => some t
  | .str s => parse_spotify_iso localOffMin s
  | .absent => none

/-- Embedding of `is_private` (line 252). -/
def is_private (e : Entry) : Bool :=
  match e.incognito_mode with
  | some v => v
  | none => e.is_private_session.getD false

/-- Embedding of `should_scrobble` (line 259). -/
def should_scrobble (e : Entry) : Bool :=
  !(pyTruthyStr e.episode_name || pyTruthyStr e.episode_show_name) &&
  !(pyTruthyStr e.audiobook_title || pyTruthyStr e.audiobook_uri) &&
  pyTruthyStr e.master_metadata_track_name &&
  pyTruthyStr e.master_metadata_album_artist_name &&
  decide (30000 ≤ e.ms_played.getD 0) &&
  !is_private e

/-- Embedding of `within_range` (lines 509-524): an unparseable bound is
silently skipped by the `except: pass` handlers. -/
def within_range (ts_sec : Int) (since_str until_str : Option String) : Bool :=
  (match since_str with
   | some s =>
       match iso_replace_utc_epoch s with
       | some since => !decide (ts_sec < since)
       | none => true
   | none => true) &&
  (match until_str with
   | some u =>
       match iso_replace_utc_epoch u with
       | some untl => !decide (ts_sec ≥ untl)
       | none => true
   | none => true)

/-- The dedup key built in `main` (line 624): `(artist, track, start_ts)`. -/
def dedup_key (now localOffMin : Int) (e : Entry) :
    Option String × Option String × Int :=
  (e.master_metadata_album_artist_name, e.master_metadata_track_name,
   compute_start_timestamp now localOffMin e)

/-- Embedding of the dedup-and-range-filter loop of `main` (lines 618-627):
first occurrence per key wins, keys already in `seen` are dropped. -/
def build_unique (now localOffMin : Int) (s u : Option String) :
    List Entry → List (Option String × Option String × Int) → List Entry
  | [], _ => []
  | e :: rest, seen =>
      if within_range (compute_start_timestamp now localOffMin e) s u then
        if dedup_key now localOffMin e ∈ seen then
          build_unique now localOffMin s u rest seen
        else e :: build_unique now localOffMin s u rest (dedup_key now localOffMin e :: seen)
      else build_unique now localOffMin s u rest seen

/-- Ordering used by `unique.sort(key=compute_start_timestamp)` (line 633). -/
def ts_le (now localOffMin : Int) (a b : Entry) : Prop :=
  compute_start_timestamp now localOffMin a ≤ compute_start_timestamp now localOffMin b

instance (now localOffMin : Int) : DecidableRel (ts_le now localOffMin) :=
  fun _ _ => Int.decLe _ _

instance (now localOffMin : Int) : IsTotal Entry (ts_le now localOffMin) :=
  ⟨fun _ _ => Int.le_total _ _⟩

instance (now localOffMin : Int) : IsTrans Entry (ts_le now localOffMin) :=
  ⟨fun _ _ _ h₁ h₂ => le_trans h₁ h₂⟩

/-- The Deduplicator/Sorter of `main` (lines 617-634): dedup with range
filter, then a stable ascending sort by `start_ts` (Python `list.sort` is
stable; any stable sort computes the same list, here insertion sort). -/
def dedup_and_sort (now localOffMin : Int) (s u : Option String)
    (candidates : List Entry) : List Entry :=
  List.insertionSort (ts_le now localOffMin)
    (build_unique now localOffMin s u candidates [])

/-- Embedding of `parse_finish_at` (line 327): `None`, the empty string and
`"now"` give the current instant; otherwise the string is parsed (a date-only
string gets `T00:00:00` appended), a naive result is read as UTC, and an
aware one converted by its own offset.  `none` models the `ValueError`
raised on a malformed string. -/
def parse_finish_at (now : Int) (s : Option String) : Option Int :=
  match s with
  | none => some now
  | some s =>
      if s = "" ∨ strLower s = "now" then some now
      else
        (fromisoformat (if 'T' ∈ s.data then s else ⟨s.data ++ "T00:00:00".data⟩)).map
          fun ci => epochOfCivil ci.1 - (ci.2.getD 0) * 60

/-- Embedding of `apply_import_mode` (lines 339-349): overrides are
`start_ts + i` with `start_ts = finish_ts - (n-1)*gap`, i.e. consecutive
items are always 1 second apart regardless of `gap`.  `none` models the
exception propagated from `parse_finish_at`. -/
def apply_import_mode (now : Int) (scrobbles : List Entry)
    (finish_at : Option String) (gap_sec : Option Int) : Option (List Entry) :=
  let gap : Int := max 1 ((pyOr gap_sec (some 1)).getD 1)
  (parse_finish_at now finish_at).map fun finish_ts =>
    let n : Int := scrobbles.length
    let start_ts := finish_ts - (n - 1) * gap
    scrobbles.enum.map fun p => { p.2 with ts_override := some (start_ts + p.1) }

/-- Decimal digits of `n`, least significant first (`fuel`-guarded so that
the kernel can evaluate it). -/
def natToDigitsRev : Nat → Nat → List Nat
  | 0, _ => []
  | fuel + 1, n => if n = 0 then [] else n % 10 :: natToDigitsRev fuel (n / 10)

/-- Decimal representation of a natural number, modelling Python `str(n)`. -/
def natRepr (n : Nat) : String :=
  if n = 0 then "0" else ⟨((natToDigitsRev (n + 1) n).map Nat.digitChar).reverse⟩

/-- Decimal representation of an integer, modelling Python `str(n)`. -/
def intRepr (i : Int) : String :=
  if i < 0 then "-" ++ natRepr i.natAbs else natRepr i.toNat

/-- The per-item timestamp selection of `build_scrobble_params` (lines
374-375): `e.get("_ts_override") or e.get("timestamp")`, used whenever the
result is not `None`, otherwise recomputed. -/
def scrobble_item_ts (now localOffMin : Int) (e : Entry) : String :=
  match pyOr e.ts_override e.timestamp with
  | some o => intRepr o
  | none => intRepr (compute_start_timestamp now localOffMin e)

/-- Embedding of `build_scrobble_params` (lines 355-391), the dict modelled
as an association list in insertion order. -/
def build_scrobble_params (now localOffMin : Int) (batch : List Entry)
    (api_key session_key : String) (include_duration send_chosen : Bool) :
    List (String × String) :=
  [("method", "track.scrobble"), ("api_key", api_key),
   ("sk", session_key), ("format", "json")] ++
  (batch.enum.map fun p =>
    let i := p.1
    let e := p.2
    let artist := e.master_metadata_album_artist_name.getD ""
    let track := e.master_metadata_track_name.getD ""
    let album := e.master_metadata_album_album_name.getD ""
    [("artist[" ++ natRepr i ++ "]", artist),
     ("track[" ++ natRepr i ++ "]", track),
     ("timestamp[" ++ natRepr i ++ "]", scrobble_item_ts now localOffMin e)] ++
    (if !album.isEmpty then
       [("album[" ++ natRepr i ++ "]", album),
        ("albumArtist[" ++ natRepr i ++ "]", artist)]
     else []) ++
    (if send_chosen then [("chosenByUser[" ++ natRepr i ++ "]", "1")] else []) ++
    (if include_duration then
       let dur := Int.fdiv (e.ms_played.getD 0) 1000
       if dur > 0 then [("duration[" ++ natRepr i ++ "]", intRepr dur)] else []
     else [])).flatten

/-- Embedding of `seconds_until_next_utc_midnight` (lines 79-82). -/
def seconds_until_next_utc_midnight (now : Int) : Int :=
  max 60 ((Int.fdiv now 86400 + 1) * 86400 - now)

/-- Rate-limit bookkeeping of `submit_batch` (lines 421-469): the count of
consecutive rate-limited responses and the current exponential backoff. -/
structure RLState where
  consec : Nat
  backoff : Int
deriving DecidableEq

/-- One rate-limited response inside the `submit_batch` retry loop (lines
436-452 for HTTP 429, 458-469 for body `error=29`).  `hint` is the parsed
`Retry-After` header when present.  Returns the sleeps performed, in order,
and the updated state. -/
def rl_step (now : Int) (hint : Option Int) (st : RLState) : List Int × RLState :=
  let consec := st.consec + 1
  let wait : Int :=
    match hint with
    | some ra => max 5 ra
    | none => min 3600 st.backoff
  let backoff : Int :=
    match hint with
    | some _ => st.backoff
    | none => min 3600 (st.backoff * 2)
  if consec ≥ 6 then
    ([wait, seconds_until_next_utc_midnight now], ⟨0, backoff⟩)
  else
    ([wait], ⟨consec, backoff⟩)

/-- A run of consecutive rate-limited responses, collecting every sleep. -/
def run_rate_limits (now : Int) : List (Option Int) → RLState → List Int × RLState
  | [], st => ([], st)
  | hint :: rest, st =>
      let step := rl_step now hint st
      let tail := run_rate_limits now rest step.2
      (step.1 ++ tail.1, tail.2)

/-- The initial rate-limit state of a `submit_batch` call (lines 422-423). -/
def rl_init : RLState := ⟨0, 30⟩

/-- Stat data of one input file as used by `dataset_signature`: the resolved
path, `st_size`, and `int(st_mtime)` (modelled as nonnegative). -/
structure FileInfo where
  path : String
  size : Nat
  mtime : Nat
deriving DecidableEq

/-- The per-file component of the signature input (line 60). -/
def filePart (f : FileInfo) : String :=
  f.path ++ "|" ++ natRepr f.size ++ "|" ++ natRepr f.mtime

/-- Stable insertion into a list sorted by lowercased path. -/
def insertFileSorted (f : FileInfo) : List FileInfo → List FileInfo
  | [] => [f]
  | g :: rest =>
      if strLower f.path < strLower g.path then f :: g :: rest
      else g :: insertFileSorted f rest

/-- Model of `sorted(paths, key=lambda x: str(x).lower())` (line 57):
a stable sort by lowercased path. -/
def sortFiles (files : List FileInfo) : List FileInfo :=
  files.foldl (fun acc f => insertFileSorted f acc) []

/-- Python `"\n".join`. -/
def joinNL : List String → String
  | [] => ""
  | [s] => s
  | s :: rest => s ++ "\n" ++ joinNL rest

/-- The string hashed by `dataset_signature` (lines 54-63). -/
def signature_input (files : List FileInfo) (since untl : Option String) : String :=
  joinNL (("SINCE=" ++ since.getD "") :: ("UNTIL=" ++ untl.getD "") ::
    (sortFiles files).map filePart)

/-- Embedding of `dataset_signature` (lines 54-63) with the MD5 digest kept
abstract as `h`. -/
def dataset_signature (h : String → String) (files : List FileInfo)
    (since untl : Option String) : String :=
  h (signature_input files since untl)

/-- The persisted resume state fields consulted by `main` (line 599). -/
structure ResumeState where
  sig : String
  offset : Nat
deriving DecidableEq

/-- The effective starting offset computed in `main` (line 599): the stored
offset when the stored signature matches the current one, else 0. -/
def resume_offset_of (state : Option ResumeState) (sig : String) : Nat :=
  match state with
  | some st => if st.sig = sig then st.offset else 0
  | none => 0

/-- The tail of the working set actually submitted (line 651). -/
def submission_tail (state : Option ResumeState) (sig : String)
    (unique : List Entry) : List Entry :=
  unique.drop (resume_offset_of state sig)

/-- Embedding of the batch-submission loop of `main` (lines 659-690).
`r` is `resume_offset`, `i` the current batch start inside the tail, `cur`
the offset currently persisted (initially the offset in effect), `rest` the
remaining records and `outs` the `accepted` count returned for each
successive batch.  Each trace element is (offset in effect before the
batch, accepted, offset persisted after the batch); a batch with
`accepted = 0` does not call `save_state` (lines 675-689). -/
def submission_loop (r : Nat) : Nat → Nat → List Entry → List Nat →
    List (Nat × Nat × Nat)
  | _, _, [], _ => []
  | _, _, _, [] => []
  | i, cur, _ :: rest, a :: outs =>
      let newCur := if a > 0 then r + i + a else cur
      (cur, a, newCur) ::
        submission_loop r (i + 50) newCur ((List.drop 49 rest)) outs

/-- The offset trace of one run: batches start at `i = 0` with the resume
offset in effect. -/
def submission_trace (r : Nat) (tail : List Entry) (outs : List Nat) :
    List (Nat × Nat × Nat) :=
  submission_loop r 0 r tail outs

/-- Absence of a character from a string. -/
def charFree (c : Char) (s : String) : Prop := c ∉ s.data

instance (c : Char) (s : String) : Decidable (charFree c s) := by
  unfold charFree; infer_instance

/-- A record with every field absent. -/
def blankEntry : Entry := {}

/-- The record of the spec's timestamp scenario: `ts = "2024-01-01T00:05:00Z"`,
`ms_played = 300000`. -/
def scenarioEntry : Entry :=
  { master_metadata_album_artist_name := some "X"
    master_metadata_track_name := some "Y"
    ms_played := some 300000
    ts := .str "2024-01-01T00:05:00Z" }

/-- A record whose `offline_timestamp` is the integer 0. -/
def offlineZeroEntry : Entry :=
  { ts := .num 1000, offline_timestamp := some 0 }

/-- A record whose `timestamp` field is the integer 0. -/
def timestampZeroEntry : Entry :=
  { ts := .num 1000, timestamp := some 0 }

example : iso_replace_utc_epoch "2024-01-01" = some 1704067200 := by decide
example : iso_replace_utc_epoch "2024-02-01" = some 1706745600 := by decide
example : iso_replace_utc_epoch "2024-03-01" = some 1709251200 := by decide
example : iso_replace_utc_epoch "2024-13-99" = none := by decide
example : parse_spotify_iso 0 "2024-01-01T00:05:00Z" = some 1704067500 := by decide
example : compute_start_timestamp 0 0 scenarioEntry = 1704067200 := by decide
example : parse_finish_at 0 (some "1970-01-01T00:01:40") = some 100 := by decide
example : natRepr 1000 = "1000" := by decide
example : intRepr (-45) = "-45" := by decide

/-! ## Theorems -/

/-- C1: the Import Re-dater does NOT assign `finish_at - (n-1-i)*gap_sec`.
Evaluating `apply_import_mode` on a working set of size 2 with `gap_sec = 2`
and `finish_at` parsing to epoch 100: the code assigns overrides 98 and 99
(always 1 second apart), while the claimed formula gives 98 and 100, so the
last item does not land on `finish_at`.  This contradicts the function's own
documentation ("evenly spaced and end at finish_at") and the `--gap-sec`
help text ("seconds between re-dated scrobbles"). -/
theorem import_redater_not_gap_spaced :
    (apply_import_mode 0 [blankEntry, blankEntry] (some "1970-01-01T00:01:40")
        (some 2)).map (fun l => l.map (fun e => e.ts_override)) =
      some [some 98, some 99] ∧
    parse_finish_at 0 (some "1970-01-01T00:01:40") = some 100 ∧
    some (99 : Int) ≠ some (100 - ((2 : Int) - 1 - 1) * 2) := by
  decide

/-- C3: starting from the fresh `submit_batch` state, six consecutive
rate-limited responses without a retry hint sleep 30, 60, 120, 240, 480 and
960 seconds, the sixth is followed by a sleep until the next UTC midnight
and the consecutive counter resets to 0; a response with a retry hint waits
`max 5 hint`; a hint-less backoff wait is always `min 3600 backoff`, hence
at most 3600 seconds. -/
theorem backoff_ladder (now : Int) :
    run_rate_limits now (List.replicate 6 none) rl_init =
      ([30, 60, 120, 240, 480, 960, seconds_until_next_utc_midnight now],
        ⟨0, 1920⟩) ∧
    (∀ (ra : Int) (st : RLState),
        (rl_step now (some ra) st).1.head? = some (max 5 ra)) ∧
    (∀ st : RLState,
        (rl_step now none st).1.head? = some (min 3600 st.backoff) ∧
        min 3600 st.backoff ≤ 3600) := by
  refine ⟨?_, ?_, ?_⟩
  · norm_num [run_rate_limits, rl_step, rl_init, List.replicate]
  · intro ra st
    by_cases h : st.consec + 1 ≥ 6 <;> simp [rl_step, h]
  · intro st
    refine ⟨?_, min_le_left _ _⟩
    by_cases h : st.consec + 1 ≥ 6 <;> simp [rl_step, h]

/-- C4, counterexample: `compute_start_timestamp` is not independent of the
wall clock on every record.  A record with an absent `ts` falls back to
`datetime.now`, so two calls at wall-clock instants 0 and 1 differ. -/
theorem compute_start_wall_clock_dependent :
    compute_start_timestamp 0 0 blankEntry = 0 ∧
    compute_start_timestamp 1 0 blankEntry = 1 ∧ (0 : Int) ≠ 1 := by
  decide

/-- C4, amended: on every record whose end marker `ts` is present and
parseable (numeric epoch, datetime, or parseable ISO string),
`compute_start_timestamp` is deterministic and independent of the wall
clock: two calls at different wall-clock instants agree.  Records with an
absent or unparseable `ts` fall back to the current wall-clock instant. -/
theorem compute_start_deterministic (e : Entry) (now₁ now₂ localOffMin : Int)
    (hp : (end_marker_epoch localOffMin e).isSome) :
    compute_start_timestamp now₁ localOffMin e =
      compute_start_timestamp now₂ localOffMin e := by
  unfold end_marker_epoch at hp
  unfold compute_start_timestamp
  cases hts : e.ts with
  | num n => simp
  | dtm t => simp
  | str s =>
      rw [hts] at hp
      change (parse_spotify_iso localOffMin s).isSome = true at hp
      cases hps : parse_spotify_iso localOffMin s with
      | none => rw [hps] at hp; simp at hp
      | some v => simp [hps]
  | absent => rw [hts] at hp; simp at hp

/-- Witness for C4's amended theorem at the spec's scenario record. -/
theorem compute_start_deterministic_witness :
    (end_marker_epoch 0 scenarioEntry).isSome ∧
    compute_start_timestamp 5 0 scenarioEntry =
      compute_start_timestamp 99 0 scenarioEntry :=
  ⟨by decide, compute_start_deterministic scenarioEntry 5 99 0 (by decide)⟩

/-- C7, counterexample: an `offline_timestamp` equal to the integer 0 is a
valid epoch value within 7 days of the computed start 1000, so the claim
requires the resolved start to be 0; the code's truthiness guard `if off:`
skips it and returns 1000. -/
theorem offline_zero_ignored :
    compute_start_timestamp 0 0 offlineZeroEntry = 1000 ∧
    ((0 : Int) - 1000).natAbs ≤ 7 * 24 * 3600 ∧ (1000 : Int) ≠ 0 := by
  decide

/-- C7, amended: for every record with a parseable end marker `E`, the
resolved start is `E - floor(ms_played/1000)`, except that a NONZERO
`offline_timestamp` within 7 days of that computed start replaces it (the
code's `if off:` truthiness guard skips the epoch value 0).  The spec's
scenario record resolves to the epoch seconds of 2024-01-01T00:00:00Z. -/
theorem start_ts_reconciliation :
    (∀ (e : Entry) (now localOffMin E : Int),
        end_marker_epoch localOffMin e = some E →
        compute_start_timestamp now localOffMin e =
          (let base := E - Int.fdiv (e.ms_played.getD 0) 1000
           match e.offline_timestamp with
           | some off =>
               if off ≠ 0 ∧ (off - base).natAbs ≤ 7 * 24 * 3600 then off else base
           | none => base)) ∧
    compute_start_timestamp 0 0 scenarioEntry = 1704067200 := by
  constructor
  · intro e now localOffMin E hE
    unfold end_marker_epoch at hE
    simp only [compute_start_timestamp]
    have hbase :
        (match e.ts with
          | .num n => n - Int.fdiv (e.ms_played.getD 0) 1000
          | .dtm t => t - Int.fdiv (e.ms_played.getD 0) 1000
          | .str s =>
              (match parse_spotify_iso localOffMin s with
               | some endEpoch => endEpoch
               | none => now) - Int.fdiv (e.ms_played.getD 0) 1000
          | .absent => now) = E - Int.fdiv (e.ms_played.getD 0) 1000 := by
      cases hts : e.ts with
      | num n =>
          rw [hts] at hE
          change some n = some E at hE
          injection hE with h
          rw [h]
      | dtm t =>
          rw [hts] at hE
          change some t = some E at hE
          injection hE with h
          rw [h]
      | str s =>
          rw [hts] at hE
          change parse_spotify_iso localOffMin s = some E at hE
          simp [hE]
      | absent =>
          rw [hts] at hE
          change none = some E at hE
          exact absurd hE (by simp)
    rw [hbase]
    cases hoff : e.offline_timestamp with
    | none => rfl
    | some off =>
        by_cases h0 : off = 0
        · simp [h0]
        · by_cases h7 : (off - (E - Int.fdiv (e.ms_played.getD 0) 1000)).natAbs ≤ 7 * 24 * 3600
          · simp [h0, h7]
          · simp [h0, h7]
  · decide

/-- Witness for C7's amended theorem at the spec's scenario record. -/
theorem start_ts_reconciliation_witness :
    end_marker_epoch 0 scenarioEntry = some 1704067500 ∧
    compute_start_timestamp 3 0 scenarioEntry =
      1704067500 - Int.fdiv ((scenarioEntry.ms_played).getD 0) 1000 := by
  refine ⟨by decide, ?_⟩
  have h := start_ts_reconciliation.1 scenarioEntry 3 0 1704067500 (by decide)
  simpa using h

/-- C9: with parseable `since`/`until` bounds resolving to epoch instants
`S` and `U` (date-only strings resolve to UTC midnight), `within_range`
keeps a record exactly when `S ≤ start_ts < U`: `since` inclusive, `until`
exclusive. -/
theorem within_range_keep_iff (ts S U : Int) (s u : String)
    (hs : iso_replace_utc_epoch s = some S)
    (hu : iso_replace_utc_epoch u = some U) :
    within_range ts (some s) (some u) = (decide (S ≤ ts) && decide (ts < U)) := by
  have h1 : (!decide (ts < S)) = decide (S ≤ ts) := by
    rw [← decide_not]
    exact decide_eq_decide.mpr not_lt
  have h2 : (!decide (ts ≥ U)) = decide (ts < U) := by
    rw [← decide_not]
    exact decide_eq_decide.mpr not_le
  unfold within_range
  change ((match iso_replace_utc_epoch s with
           | some since => !decide (ts < since)
           | none => true) &&
          (match iso_replace_utc_epoch u with
           | some untl => !decide (ts ≥ untl)
           | none => true)) = (decide (S ≤ ts) && decide (ts < U))
  rw [hs, hu]
  change ((!decide (ts < S)) && (!decide (ts ≥ U))) = (decide (S ≤ ts) && decide (ts < U))
  rw [h1, h2]

/-- Witness for C9 at the spec's scenario: with `since="2024-02-01"` and
`until="2024-03-01"`, a record exactly on the `until` midnight
(epoch 1709251200 = 2024-03-01T00:00:00Z) is excluded and one exactly on
the `since` midnight (epoch 1706745600) is kept. -/
theorem within_range_keep_iff_witness :
    within_range 1709251200 (some "2024-02-01") (some "2024-03-01") = false ∧
    within_range 1706745600 (some "2024-02-01") (some "2024-03-01") = true := by
  have h1 := within_range_keep_iff 1709251200 1706745600 1709251200
    "2024-02-01" "2024-03-01" (by decide) (by decide)
  have h2 := within_range_keep_iff 1706745600 1706745600 1709251200
    "2024-02-01" "2024-03-01" (by decide) (by decide)
  exact ⟨by rw [h1]; decide, by rw [h2]; decide⟩

/-- C10, counterexample: a `timestamp` field equal to 0 (the epoch instant)
is NOT silently ignored: `0 or 0` falls through the `or` but passes the
`is not None` test, so the submitted timestamp is the verbatim string "0",
not the value recomputed by `compute_start_timestamp` (which is 1000 for
this record). -/
theorem timestamp_zero_used_verbatim :
    (build_scrobble_params 0 0 [timestampZeroEntry] "k" "s" false true).lookup
        "timestamp[0]" = some "0" ∧
    intRepr (compute_start_timestamp 0 0 timestampZeroEntry) = "1000" ∧
    ("0" : String) ≠ "1000" := by
  decide

/-- C10, amended: the override chosen for a batch item is
`_ts_override or timestamp`; a `_ts_override` of 0 is skipped by the `or`
(truthiness), but the chosen value is used verbatim whenever it is not
`None` — including a `timestamp` value of 0.  Recomputation via
`compute_start_timestamp` happens only when the chosen value is `None`
(for instance, `_ts_override = 0` with no `timestamp` field).
`build_scrobble_params` sends exactly this selection as `timestamp[i]`. -/
theorem override_truthiness (now localOffMin : Int) (e : Entry) (ak sk : String) :
    (scrobble_item_ts now localOffMin e =
       match e.ts_override with
       | some o =>
           if o ≠ 0 then intRepr o
           else
             match e.timestamp with
             | some t => intRepr t
             | none => intRepr (compute_start_timestamp now localOffMin e)
       | none =>
           match e.timestamp with
           | some t => intRepr t
           | none => intRepr (compute_start_timestamp now localOffMin e)) ∧
    scrobble_item_ts now localOffMin { e with ts_override := some 0, timestamp := none } =
      intRepr (compute_start_timestamp now localOffMin
        { e with ts_override := some 0, timestamp := none }) ∧
    (build_scrobble_params now localOffMin [e] ak sk false true).lookup
        "timestamp[0]" = some (scrobble_item_ts now localOffMin e) := by
  refine ⟨?_, ?_, ?_⟩
  · unfold scrobble_item_ts pyOr
    cases e.ts_override with
    | none =>
        cases e.timestamp with
        | none => rfl
        | some t => rfl
    | some o =>
        by_cases h0 : o = 0
        · cases e.timestamp with
          | none => simp [h0]
          | some t => simp [h0]
        · simp [h0]
  · unfold scrobble_item_ts pyOr
    rfl
  · rfl

/-- With an unparseable `since` bound, `build_unique` behaves exactly as if
no lower bound had been supplied. -/
theorem build_unique_malformed_since (now localOffMin : Int) (s : String)
    (u : Option String) (hbad : iso_replace_utc_epoch s = none) :
    ∀ (l : List Entry) (seen : List (Option String × Option String × Int)),
      build_unique now localOffMin (some s) u l seen =
        build_unique now localOffMin none u l seen := by
  intro l
  induction l with
  | nil => intro seen; rfl
  | cons e rest ih =>
      intro seen
      have hw : within_range (compute_start_timestamp now localOffMin e) (some s) u =
          within_range (compute_start_timestamp now localOffMin e) none u := by
        simp [within_range, hbad]
      simp only [build_unique, hw]
      by_cases h1 : within_range (compute_start_timestamp now localOffMin e) none u = true
      · by_cases h2 : dedup_key now localOffMin e ∈ seen <;> simp [h1, h2, ih]
      · simp [h1, ih]

/-- With an unparseable `until` bound, `build_unique` behaves exactly as if
no upper bound had been supplied. -/
theorem build_unique_malformed_until (now localOffMin : Int) (u : String)
    (s : Option String) (hbad : iso_replace_utc_epoch u = none) :
    ∀ (l : List Entry) (seen : List (Option String × Option String × Int)),
      build_unique now localOffMin s (some u) l seen =
        build_unique now localOffMin s none l seen := by
  intro l
  induction l with
  | nil => intro seen; rfl
  | cons e rest ih =>
      intro seen
      have hw : within_range (compute_start_timestamp now localOffMin e) s (some u) =
          within_range (compute_start_timestamp now localOffMin e) s none := by
        simp [within_range, hbad]
      simp only [build_unique, hw]
      by_cases h1 : within_range (compute_start_timestamp now localOffMin e) s none = true
      · by_cases h2 : dedup_key now localOffMin e ∈ seen <;> simp [h1, h2, ih]
      · simp [h1, ih]

/-- C8, counterexample: a malformed `--since` is NOT detected before any
network call.  The string "2024-13-99" does not parse, yet `within_range`
silently ignores it (`except: pass`), the working set is built as if no
bound were given, and — being nonempty — it is then submitted in batches.
No error is reported to the caller. -/
theorem malformed_since_not_rejected :
    iso_replace_utc_epoch "2024-13-99" = none ∧
    dedup_and_sort 0 0 (some "2024-13-99") none [scenarioEntry] = [scenarioEntry] := by
  decide

/-- C8, amended: a non-numeric `--limit` is rejected by the argument parser
before any network call, but a malformed `since`/`until` date filter is NOT
detected: `within_range` silently treats an unparseable bound as absent, so
the run filters nothing on that bound, builds the same working set as an
unbounded run, and proceeds to submission. -/
theorem malformed_bounds_silently_ignored :
    (∀ (ts : Int) (s : String) (u : Option String),
        iso_replace_utc_epoch s = none →
        within_range ts (some s) u = within_range ts none u) ∧
    (∀ (ts : Int) (s : Option String) (u : String),
        iso_replace_utc_epoch u = none →
        within_range ts s (some u) = within_range ts s none) ∧
    (∀ (now localOffMin : Int) (s : String) (u : Option String)
        (cands : List Entry),
        iso_replace_utc_epoch s = none →
        dedup_and_sort now localOffMin (some s) u cands =
          dedup_and_sort now localOffMin none u cands) ∧
    (∀ (now localOffMin : Int) (u : String) (s : Option String)
        (cands : List Entry),
        iso_replace_utc_epoch u = none →
        dedup_and_sort now localOffMin s (some u) cands =
          dedup_and_sort now localOffMin s none cands) := by
  refine ⟨?_, ?_, ?_, ?_⟩
  · intro ts s u hbad
    simp [within_range, hbad]
  · intro ts s u hbad
    simp [within_range, hbad]
  · intro now localOffMin s u cands hbad
    unfold dedup_and_sort
    rw [build_unique_malformed_since now localOffMin s u hbad]
  · intro now localOffMin u s cands hbad
    unfold dedup_and_sort
    rw [build_unique_malformed_until now localOffMin u s hbad]

/-- Witness for C8's amended theorem at concrete malformed bounds. -/
theorem malformed_bounds_silently_ignored_witness :
    within_range 123 (some "2024-13-99") none = within_range 123 none none ∧
    within_range 123 none (some "not-a-date") = within_range 123 none none ∧
    dedup_and_sort 0 0 (some "2024-13-99") none [scenarioEntry] =
      dedup_and_sort 0 0 none none [scenarioEntry] :=
  ⟨malformed_bounds_silently_ignored.1 123 "2024-13-99" none (by decide),
   malformed_bounds_silently_ignored.2.1 123 none "not-a-date" (by decide),
   malformed_bounds_silently_ignored.2.2.1 0 0 "2024-13-99" none [scenarioEntry]
     (by decide)⟩

/-- Elements produced by `build_unique` have keys outside `seen`, and their
keys are pairwise distinct. -/
theorem build_unique_keys_nodup (now localOffMin : Int) (s u : Option String) :
    ∀ (l : List Entry) (seen : List (Option String × Option String × Int)),
      (∀ e ∈ build_unique now localOffMin s u l seen,
          dedup_key now localOffMin e ∉ seen) ∧
      ((build_unique now localOffMin s u l seen).map
          (dedup_key now localOffMin)).Nodup := by
  intro l
  induction l with
  | nil =>
      intro seen
      exact ⟨by intro e he; simp [build_unique] at he, by simp [build_unique]⟩
  | cons e rest ih =>
      intro seen
      simp only [build_unique]
      by_cases hw : within_range (compute_start_timestamp now localOffMin e) s u = true
      · simp only [hw, if_true]
        by_cases hm : dedup_key now localOffMin e ∈ seen
        · simp only [hm, if_true]
          exact ih seen
        · simp only [hm, if_false]
          obtain ⟨ih1, ih2⟩ := ih (dedup_key now localOffMin e :: seen)
          constructor
          · intro x hx
            rcases List.mem_cons.mp hx with hx | hx
            · rw [hx]; exact hm
            · intro hcon
              exact ih1 x hx (List.mem_cons_of_mem _ hcon)
          · rw [List.map_cons, List.nodup_cons]
            refine ⟨?_, ih2⟩
            intro hcon
            rcases List.mem_map.mp hcon with ⟨x, hx, hkx⟩
            exact ih1 x hx (by rw [hkx]; exact List.mem_cons_self _ _)
      · simp only [hw, if_false]
        exact ih seen

/-- First-occurrence characterisation of `build_unique`: for every key `k`
not yet seen, the entries of the output with key `k` are exactly the first
range-surviving input entry with that key. -/
theorem build_unique_first_wins (now localOffMin : Int) (s u : Option String)
    (k : Option String × Option String × Int) :
    ∀ (l : List Entry) (seen : List (Option String × Option String × Int)),
      (build_unique now localOffMin s u l seen).filter
          (fun e => decide (dedup_key now localOffMin e = k)) =
        if k ∈ seen then [] else
          ((l.filter (fun e =>
              within_range (compute_start_timestamp now localOffMin e) s u)).filter
            (fun e => decide (dedup_key now localOffMin e = k))).take 1 := by
  intro l
  induction l with
  | nil =>
      intro seen
      by_cases h : k ∈ seen <;> simp [build_unique, h]
  | cons e rest ih =>
      intro seen
      simp only [build_unique]
      by_cases hw : within_range (compute_start_timestamp now localOffMin e) s u = true
      · simp only [hw, if_true, List.filter_cons]
        by_cases hm : dedup_key now localOffMin e ∈ seen
        · simp only [hm, if_true]
          rw [ih seen]
          by_cases hk : k ∈ seen
          · simp [hk]
          · have he : decide (dedup_key now localOffMin e = k) = false := by
              simp only [decide_eq_false_iff_not]
              intro hcon
              rw [hcon] at hm
              exact hk hm
            simp [hk, he]
        · simp only [hm, if_false, List.filter_cons]
          by_cases he : dedup_key now localOffMin e = k
          · have hk : k ∉ seen := by rw [← he]; exact hm
            rw [ih (dedup_key now localOffMin e :: seen)]
            have hkin : k ∈ dedup_key now localOffMin e :: seen := by
              rw [he]; exact List.mem_cons_self _ _
            simp [hk, hkin, he]
          · rw [ih (dedup_key now localOffMin e :: seen)]
            have hkni : (k ∈ dedup_key now localOffMin e :: seen) ↔ k ∈ seen := by
              constructor
              · intro hc
                rcases List.mem_cons.mp hc with hc | hc
                · exact absurd hc.symm he
                · exact hc
              · exact List.mem_cons_of_mem _
            by_cases hk : k ∈ seen
            · simp [hk, hkni.mpr hk, he]
            · have : k ∉ dedup_key now localOffMin e :: seen := fun hc => hk (hkni.mp hc)
              simp [hk, this, he]
      · have hw' : within_range (compute_start_timestamp now localOffMin e) s u = false := by
          simpa using hw
        rw [if_neg hw, ih seen]
        simp [List.filter_cons, hw']

/-- C5: the Deduplicator/Sorter's output has pairwise-distinct dedup keys
(artist, track, start_ts), is sorted non-decreasing by start_ts, is a
permutation of the dedup pass's output, and that dedup pass retains, for
each key, exactly the first range-surviving candidate in ingestion order
(duplicate keys always share the filter outcome, since the range filter
depends only on the key's start_ts component). -/
theorem dedup_sort_invariants (now localOffMin : Int) (s u : Option String)
    (candidates : List Entry) :
    ((dedup_and_sort now localOffMin s u candidates).map
        (dedup_key now localOffMin)).Nodup ∧
    List.Sorted (ts_le now localOffMin)
      (dedup_and_sort now localOffMin s u candidates) ∧
    (dedup_and_sort now localOffMin s u candidates).Perm
      (build_unique now localOffMin s u candidates []) ∧
    (∀ k, (build_unique now localOffMin s u candidates []).filter
          (fun e => decide (dedup_key now localOffMin e = k)) =
        ((candidates.filter (fun e =>
            within_range (compute_start_timestamp now localOffMin e) s u)).filter
          (fun e => decide (dedup_key now localOffMin e = k))).take 1) := by
  have hperm : (dedup_and_sort now localOffMin s u candidates).Perm
      (build_unique now localOffMin s u candidates []) :=
    List.perm_insertionSort _ _
  refine ⟨?_, ?_, hperm, ?_⟩
  · exact (hperm.map (dedup_key now localOffMin)).nodup_iff.mpr
      (build_unique_keys_nodup now localOffMin s u candidates []).2
  · exact List.sorted_insertionSort _ _
  · intro k
    have h := build_unique_first_wins now localOffMin s u k candidates []
    simpa using h

/-- Offset bookkeeping of the submission loop, relative to an arbitrary
batch start `i` and currently persisted offset `cur`. -/
theorem submission_loop_spec (r : Nat) :
    ∀ (outs : List Nat) (rest : List Entry) (i cur m b a c : Nat),
      (submission_loop r i cur rest outs).get? m = some (b, a, c) →
      (a > 0 → c = r + (i + 50 * m) + a) ∧
      (a = 0 → c = b) ∧
      (cur = r + i → (∀ j, j < m → outs.get? j = some 50) →
        b = r + (i + 50 * m)) := by
  intro outs
  induction outs with
  | nil =>
      intro rest i cur m b a c h
      cases rest with
      | nil => simp [submission_loop] at h
      | cons x xs => simp [submission_loop] at h
  | cons a0 outs ih =>
      intro rest i cur m b a c h
      cases rest with
      | nil => simp [submission_loop] at h
      | cons x xs =>
          simp only [submission_loop] at h
          cases m with
          | zero =>
              simp only [List.get?] at h
              injection h with h
              injection h with hb h
              injection h with ha hc
              subst hb; subst ha; subst hc
              refine ⟨?_, ?_, ?_⟩
              · intro hpos
                rw [if_pos hpos]
                omega
              · intro hz
                rw [if_neg (by omega)]
              · intro hcur _
                omega
          | succ m =>
              simp only [List.get?] at h
              have h' := ih (List.drop 49 xs) (i + 50)
                (if a0 > 0 then r + i + a0 else cur) m b a c h
              refine ⟨?_, h'.2.1, ?_⟩
              · intro hpos
                have := h'.1 hpos
                omega
              · intro hcur hfull
                have h0 : a0 = 50 := by
                  have := hfull 0 (by omega)
                  simp only [List.get?] at this
                  injection this
                have hnew : (if a0 > 0 then r + i + a0 else cur) = r + (i + 50) := by
                  rw [if_pos (by omega)]
                  omega
                have := h'.2.2 hnew (by
                  intro j hj
                  have := hfull (j + 1) (by omega)
                  simpa using this)
                omega

/-- C2, counterexample: two successive batches of 50 each reporting
`accepted = 30` (partial acceptance).  After the first batch the persisted
offset is 30, but after the second it is `resume_offset + batch_start +
accepted = 0 + 50 + 30 = 80`, not `30 + 30 = 60`: the persisted offset is
not "offset in effect before the batch plus accepted". -/
theorem offset_not_old_plus_accepted :
    (submission_trace 0 (List.replicate 51 blankEntry) [30, 30]).get? 1 =
      some (30, 30, 80) ∧ 80 ≠ 30 + 30 := by
  decide

/-- C2, amended: after a batch starting at index `50*m` of the tail that
returns `accepted > 0`, the persisted offset is
`resume_offset + 50*m + accepted` (the batch's absolute start plus the
accepted count, not the previously persisted offset plus accepted); a batch
with `accepted = 0` leaves the persisted offset unchanged, so the same tail
is retried on the next invocation; and whenever every earlier batch of the
run was fully accepted (50 each) — in particular for the first batch — the
offset in effect before the batch is `resume_offset + 50*m`, so the new
offset does equal the old offset plus the accepted count (a batch of 50
with `accepted = 30` advances it by exactly 30). -/
theorem offset_advance_by_accepted (r : Nat) (tail : List Entry)
    (outs : List Nat) (m b a c : Nat)
    (h : (submission_trace r tail outs).get? m = some (b, a, c)) :
    (a > 0 → c = r + 50 * m + a) ∧
    (a = 0 → c = b) ∧
    ((∀ j, j < m → outs.get? j = some 50) →
      b = r + 50 * m ∧ (a > 0 → c = b + a)) := by
  have h' := submission_loop_spec r outs tail 0 r m b a c h
  refine ⟨?_, h'.2.1, ?_⟩
  · intro hpos
    have := h'.1 hpos
    omega
  · intro hfull
    have hb := h'.2.2 (by omega) hfull
    refine ⟨by omega, ?_⟩
    intro hpos
    have := h'.1 hpos
    omega

/-- Witness for C2's amended theorem: at the concrete trace of the
counterexample run, the second batch (start index 50) with accepted 30
persists offset 0 + 50·1 + 30 = 80. -/
theorem offset_advance_by_accepted_witness :
    (submission_trace 0 (List.replicate 51 blankEntry) [30, 30]).get? 1 =
      some (30, 30, 80) ∧ (30 > 0 → 80 = 0 + 50 * 1 + 30) :=
  ⟨by decide,
   (offset_advance_by_accepted 0 (List.replicate 51 blankEntry) [30, 30]
      1 30 30 80 (by decide)).1⟩

/-- Splitting at a separator: when the prefixes are free of the separator,
a separated concatenation determines prefix and suffix. -/
theorem sep_split (c : Char) :
    ∀ (l₁ l₂ r₁ r₂ : List Char), c ∉ l₁ → c ∉ l₂ →
      l₁ ++ c :: r₁ = l₂ ++ c :: r₂ → l₁ = l₂ ∧ r₁ = r₂ := by
  intro l₁
  induction l₁ with
  | nil =>
      intro l₂ r₁ r₂ _ h2 h
      cases l₂ with
      | nil =>
          simp only [List.nil_append] at h
          exact ⟨rfl, (List.cons.injEq _ _ _ _ ▸ h).2⟩
      | cons b bs =>
          simp only [List.nil_append, List.cons_append] at h
          obtain ⟨hc, _⟩ := List.cons.injEq _ _ _ _ ▸ h
          exact absurd (hc ▸ List.mem_cons_self b bs) h2
  | cons a as ih =>
      intro l₂ r₁ r₂ h1 h2 h
      cases l₂ with
      | nil =>
          simp only [List.nil_append, List.cons_append] at h
          obtain ⟨hc, _⟩ := List.cons.injEq _ _ _ _ ▸ h
          exact absurd (hc ▸ List.mem_cons_self a as) h1
      | cons b bs =>
          simp only [List.cons_append] at h
          obtain ⟨hab, htail⟩ := List.cons.injEq _ _ _ _ ▸ h
          have h1' : c ∉ as := fun hc => h1 (List.mem_cons_of_mem _ hc)
          have h2' : c ∉ bs := fun hc => h2 (List.mem_cons_of_mem _ hc)
          obtain ⟨hl, hr⟩ := ih bs r₁ r₂ h1' h2' htail
          exact ⟨by rw [hab, hl], hr⟩

/-- Splitting at a separator from the right: when the suffixes are free of
the separator, a separated concatenation determines prefix and suffix. -/
theorem sep_split_right (c : Char) :
    ∀ (l₁ l₂ r₁ r₂ : List Char), c ∉ r₁ → c ∉ r₂ →
      l₁ ++ c :: r₁ = l₂ ++ c :: r₂ → l₁ = l₂ ∧ r₁ = r₂ := by
  intro l₁
  induction l₁ with
  | nil =>
      intro l₂ r₁ r₂ h1 _ h
      cases l₂ with
      | nil =>
          simp only [List.nil_append] at h
          exact ⟨rfl, (List.cons.injEq _ _ _ _ ▸ h).2⟩
      | cons b bs =>
          simp only [List.nil_append, List.cons_append] at h
          obtain ⟨hc, htail⟩ := List.cons.injEq _ _ _ _ ▸ h
          exact absurd (htail ▸ (List.mem_append_right bs (List.mem_cons_self c r₂)))
            h1
  | cons a as ih =>
      intro l₂ r₁ r₂ h1 h2 h
      cases l₂ with
      | nil =>
          simp only [List.nil_append, List.cons_append] at h
          obtain ⟨hc, htail⟩ := List.cons.injEq _ _ _ _ ▸ h
          exact absurd (htail.symm ▸ (List.mem_append_right as (List.mem_cons_self c r₁)))
            h2
      | cons b bs =>
          simp only [List.cons_append] at h
          obtain ⟨hab, htail⟩ := List.cons.injEq _ _ _ _ ▸ h
          obtain ⟨hl, hr⟩ := ih bs r₁ r₂ h1 h2 htail
          exact ⟨by rw [hab, hl], hr⟩

/-- Digit characters are injective below 10. -/
theorem digitChar_inj_lt :
    ∀ a b : Nat, a < 10 → b < 10 → Nat.digitChar a = Nat.digitChar b → a = b := by
  have key : ∀ a b : Fin 10, Nat.digitChar a.val = Nat.digitChar b.val → a = b := by
    decide
  intro a b ha hb h
  exact congrArg Fin.val (key ⟨a, ha⟩ ⟨b, hb⟩ h)

/-- Digit characters are neither the pipe nor the newline separator. -/
theorem digitChar_not_sep :
    ∀ a : Nat, a < 10 → Nat.digitChar a ≠ '|' ∧ Nat.digitChar a ≠ '\n' := by
  have key : ∀ a : Fin 10, Nat.digitChar a.val ≠ '|' ∧ Nat.digitChar a.val ≠ '\n' := by
    decide
  intro a ha
  exact key ⟨a, ha⟩

/-- All digits produced by `natToDigitsRev` are below 10. -/
theorem natToDigitsRev_lt :
    ∀ (fuel n : Nat), ∀ d ∈ natToDigitsRev fuel n, d < 10 := by
  intro fuel
  induction fuel with
  | zero => intro n d hd; simp [natToDigitsRev] at hd
  | succ fuel ih =>
      intro n d hd
      simp only [natToDigitsRev] at hd
      by_cases hn : n = 0
      · rw [if_pos hn] at hd; simp at hd
      · rw [if_neg hn] at hd
        rcases List.mem_cons.mp hd with hd | hd
        · rw [hd]; exact Nat.mod_lt _ (by omega)
        · exact ih _ d hd

/-- Little-endian decimal value of a digit list. -/
def digitsVal : List Nat → Nat
  | [] => 0
  | d :: ds => d + 10 * digitsVal ds

/-- `natToDigitsRev` round-trips through `digitsVal` when given enough fuel. -/
theorem natToDigitsRev_val :
    ∀ (fuel n : Nat), n < fuel → digitsVal (natToDigitsRev fuel n) = n := by
  intro fuel
  induction fuel with
  | zero => intro n hn; omega
  | succ fuel ih =>
      intro n hn
      simp only [natToDigitsRev]
      by_cases hz : n = 0
      · rw [if_pos hz, hz]; rfl
      · rw [if_neg hz]
        simp only [digitsVal]
        have hdiv : n / 10 < fuel := by
          have h1 : n / 10 < n := Nat.div_lt_self (by omega) (by omega)
          omega
        rw [ih (n / 10) hdiv]
        omega

/-- Mapping `digitChar` over digit lists below 10 is injective. -/
theorem map_digitChar_inj :
    ∀ (ds₁ ds₂ : List Nat), (∀ d ∈ ds₁, d < 10) → (∀ d ∈ ds₂, d < 10) →
      ds₁.map Nat.digitChar = ds₂.map Nat.digitChar → ds₁ = ds₂ := by
  intro ds₁
  induction ds₁ with
  | nil =>
      intro ds₂ _ _ h
      cases ds₂ with
      | nil => rfl
      | cons b bs => simp at h
  | cons a as ih =>
      intro ds₂ h1 h2 h
      cases ds₂ with
      | nil => simp at h
      | cons b bs =>
          simp only [List.map_cons, List.cons.injEq] at h
          have ha : a = b :=
            digitChar_inj_lt a b (h1 a (List.mem_cons_self a as))
              (h2 b (List.mem_cons_self b bs)) h.1
          have : as = bs :=
            ih bs (fun d hd => h1 d (List.mem_cons_of_mem _ hd))
              (fun d hd => h2 d (List.mem_cons_of_mem _ hd)) h.2
          rw [ha, this]

/-- The decimal representation of a natural number is injective. -/
theorem natRepr_inj : ∀ (m n : Nat), natRepr m = natRepr n → m = n := by
  intro m n h
  unfold natRepr at h
  by_cases hm : m = 0 <;> by_cases hn : n = 0
  · rw [hm, hn]
  · exfalso
    rw [if_pos hm, if_neg hn] at h
    have hd := congrArg String.data h
    have hd' : (natToDigitsRev (n + 1) n).map Nat.digitChar = ['0'] := by
      have := congrArg List.reverse hd
      simpa using this.symm
    have hds : natToDigitsRev (n + 1) n = [0] := by
      have h10 : (0 : Nat) < 10 := by omega
      refine map_digitChar_inj _ [0] (natToDigitsRev_lt _ _) ?_ ?_
      · intro d hd2
        rcases List.mem_singleton.mp hd2 with rfl
        omega
      · simpa using hd'
    have := natToDigitsRev_val (n + 1) n (by omega)
    rw [hds] at this
    simp [digitsVal] at this
    exact hn this.symm
  · exfalso
    rw [if_neg hm, if_pos hn] at h
    have hd := congrArg String.data h
    have hd' : (natToDigitsRev (m + 1) m).map Nat.digitChar = ['0'] := by
      have := congrArg List.reverse hd
      simpa using this
    have hds : natToDigitsRev (m + 1) m = [0] := by
      refine map_digitChar_inj _ [0] (natToDigitsRev_lt _ _) ?_ ?_
      · intro d hd2
        rcases List.mem_singleton.mp hd2 with rfl
        omega
      · simpa using hd'
    have := natToDigitsRev_val (m + 1) m (by omega)
    rw [hds] at this
    simp [digitsVal] at this
    exact hm this.symm
  · rw [if_neg hm, if_neg hn] at h
    have hd := congrArg String.data h
    simp only at hd
    have hrev := congrArg List.reverse hd
    simp only [List.reverse_reverse] at hrev
    have hds := map_digitChar_inj _ _ (natToDigitsRev_lt _ _) (natToDigitsRev_lt _ _) hrev
    have hm' := natToDigitsRev_val (m + 1) m (by omega)
    have hn' := natToDigitsRev_val (n + 1) n (by omega)
    rw [hds] at hm'
    rw [hn'] at hm'
    exact hm'.symm

/-- The decimal representation contains no pipe character. -/
theorem natRepr_no_pipe (n : Nat) : '|' ∉ (natRepr n).data := by
  unfold natRepr
  by_cases hn : n = 0
  · rw [if_pos hn]
    decide
  · rw [if_neg hn]
    intro hc
    have hc' : '|' ∈ (natToDigitsRev (n + 1) n).map Nat.digitChar := by
      simpa using hc
    rcases List.mem_map.mp hc' with ⟨d, hd, hdc⟩
    exact (digitChar_not_sep d (natToDigitsRev_lt _ _ d hd)).1 hdc

/-- The decimal representation contains no newline character. -/
theorem natRepr_no_nl (n : Nat) : '\n' ∉ (natRepr n).data := by
  unfold natRepr
  by_cases hn : n = 0
  · rw [if_pos hn]
    decide
  · rw [if_neg hn]
    intro hc
    have hc' : '\n' ∈ (natToDigitsRev (n + 1) n).map Nat.digitChar := by
      simpa using hc
    rcases List.mem_map.mp hc' with ⟨d, hd, hdc⟩
    exact (digitChar_not_sep d (natToDigitsRev_lt _ _ d hd)).2 hdc

/-- The per-file signature component `path|size|mtime` determines the file
stat: digits contain no pipe, so the last two separators are unambiguous. -/
theorem filePart_inj : ∀ f g : FileInfo, filePart f = filePart g → f = g := by
  intro f g h
  have hd := congrArg String.data h
  unfold filePart at hd
  simp only [String.data_append] at hd
  have regroup : ∀ (p s m : List Char),
      (((p ++ ['|']) ++ s) ++ ['|']) ++ m = (p ++ '|' :: s) ++ '|' :: m := by
    intro p s m
    simp [List.append_assoc]
  rw [regroup f.path.data (natRepr f.size).data (natRepr f.mtime).data,
      regroup g.path.data (natRepr g.size).data (natRepr g.mtime).data] at hd
  obtain ⟨hX, hm⟩ := sep_split_right '|' _ _ _ _
    (natRepr_no_pipe f.mtime) (natRepr_no_pipe g.mtime) hd
  obtain ⟨hP, hS⟩ := sep_split_right '|' _ _ _ _
    (natRepr_no_pipe f.size) (natRepr_no_pipe g.size) hX
  have hpath := String.ext hP
  have hsize := natRepr_inj _ _ (String.ext hS)
  have hmt := natRepr_inj _ _ (String.ext hm)
  cases f
  cases g
  simp_all

/-- Unfolding `joinNL` on a list with at least two elements. -/
theorem joinNL_cons₂ (a b : String) (t : List String) :
    joinNL (a :: b :: t) = a ++ "\n" ++ joinNL (b :: t) := rfl

/-- Unfolding `joinNL` on a singleton. -/
theorem joinNL_single (a : String) : joinNL [a] = a := rfl

/-- The signature input determines the `since` filter string (for
newline-free filter strings). -/
theorem signature_input_since_inj (files : List FileInfo)
    (s₁ s₂ u : Option String)
    (h1 : charFree '\n' (s₁.getD "")) (h2 : charFree '\n' (s₂.getD ""))
    (heq : signature_input files s₁ u = signature_input files s₂ u) :
    s₁.getD "" = s₂.getD "" := by
  unfold signature_input at heq
  rw [joinNL_cons₂, joinNL_cons₂] at heq
  have hd := congrArg String.data heq
  simp only [String.data_append] at hd
  have regroup : ∀ (x r : List Char), (x ++ ['\n']) ++ r = x ++ '\n' :: r := by
    intro x r
    simp
  rw [regroup, regroup] at hd
  have hclean₁ : '\n' ∉ ['S', 'I', 'N', 'C', 'E', '='] ++ (s₁.getD "").data := by
    intro hc
    rcases List.mem_append.mp hc with hc | hc
    · exact absurd hc (by decide)
    · exact h1 hc
  have hclean₂ : '\n' ∉ ['S', 'I', 'N', 'C', 'E', '='] ++ (s₂.getD "").data := by
    intro hc
    rcases List.mem_append.mp hc with hc | hc
    · exact absurd hc (by decide)
    · exact h2 hc
  obtain ⟨hS, _⟩ := sep_split '\n' _ _ _ _ hclean₁ hclean₂ hd
  exact String.ext (List.append_cancel_left hS)

/-- The signature input determines the `until` filter string (for
newline-free filter strings). -/
theorem signature_input_until_inj (files : List FileInfo)
    (s u₁ u₂ : Option String)
    (h1 : charFree '\n' (u₁.getD "")) (h2 : charFree '\n' (u₂.getD ""))
    (heq : signature_input files s u₁ = signature_input files s u₂) :
    u₁.getD "" = u₂.getD "" := by
  unfold signature_input at heq
  rw [joinNL_cons₂, joinNL_cons₂] at heq
  have hd := congrArg String.data heq
  simp only [String.data_append] at hd
  have regroup : ∀ (x r : List Char), (x ++ ['\n']) ++ r = x ++ '\n' :: r := by
    intro x r
    simp
  rw [regroup, regroup] at hd
  have hR := List.append_cancel_left hd
  have hR' : (joinNL (("UNTIL=" ++ u₁.getD "") :: (sortFiles files).map filePart)).data =
      (joinNL (("UNTIL=" ++ u₂.getD "") :: (sortFiles files).map filePart)).data := by
    injection hR
  cases hfp : (sortFiles files).map filePart with
  | nil =>
      rw [hfp] at hR'
      rw [joinNL_single, joinNL_single] at hR'
      simp only [String.data_append] at hR'
      exact String.ext (List.append_cancel_left hR')
  | cons q qs =>
      rw [hfp] at hR'
      rw [joinNL_cons₂, joinNL_cons₂] at hR'
      simp only [String.data_append] at hR'
      rw [regroup, regroup] at hR'
      have hclean₁ : '\n' ∉ ['U', 'N', 'T', 'I', 'L', '='] ++ (u₁.getD "").data := by
        intro hc
        rcases List.mem_append.mp hc with hc | hc
        · exact absurd hc (by decide)
        · exact h1 hc
      have hclean₂ : '\n' ∉ ['U', 'N', 'T', 'I', 'L', '='] ++ (u₂.getD "").data := by
        intro hc
        rcases List.mem_append.mp hc with hc | hc
        · exact absurd hc (by decide)
        · exact h2 hc
      obtain ⟨hU, _⟩ := sep_split '\n' _ _ _ _ hclean₁ hclean₂ hR'
      exact String.ext (List.append_cancel_left hU)

/-- For single-file input sets, the signature input determines the file's
resolved path, size and modification time. -/
theorem signature_input_file_inj (f₁ f₂ : FileInfo) (s u : Option String)
    (heq : signature_input [f₁] s u = signature_input [f₂] s u) : f₁ = f₂ := by
  unfold signature_input at heq
  have hsf₁ : (sortFiles [f₁]).map filePart = [filePart f₁] := rfl
  have hsf₂ : (sortFiles [f₂]).map filePart = [filePart f₂] := rfl
  rw [hsf₁, hsf₂] at heq
  rw [joinNL_cons₂, joinNL_cons₂, joinNL_cons₂, joinNL_cons₂,
      joinNL_single, joinNL_single] at heq
  have hd := congrArg String.data heq
  simp only [String.data_append] at hd
  have h1 := List.append_cancel_left hd
  have h2 := List.append_cancel_left h1
  exact filePart_inj f₁ f₂ (String.ext h2)

/-- Regrouping a newline separator between append chunks. -/
theorem append_nl_regroup (x r : List Char) : (x ++ ['\n']) ++ r = x ++ '\n' :: r := by
  simp

/-- A file's signature component is newline-free when its path is. -/
theorem filePart_no_nl (g : FileInfo) (hg : charFree '\n' g.path) :
    charFree '\n' (filePart g) := by
  unfold charFree at hg ⊢
  unfold filePart
  intro hc
  simp only [String.data_append, List.mem_append, List.mem_singleton] at hc
  rcases hc with (((hc | hc) | hc) | hc) | hc
  · exact hg hc
  · exact absurd hc (by decide)
  · exact natRepr_no_nl g.size hc
  · exact absurd hc (by decide)
  · exact natRepr_no_nl g.mtime hc

/-- `joinNL` is injective on equal-length lists of newline-free strings. -/
theorem joinNL_inj_len :
    ∀ (l₁ l₂ : List String), l₁.length = l₂.length →
      (∀ x ∈ l₁, charFree '\n' x) → (∀ x ∈ l₂, charFree '\n' x) →
      joinNL l₁ = joinNL l₂ → l₁ = l₂ := by
  intro l₁
  induction l₁ with
  | nil =>
      intro l₂ hlen _ _ _
      cases l₂ with
      | nil => rfl
      | cons b t => simp at hlen
  | cons a t ih =>
      intro l₂ hlen h1 h2 heq
      cases l₂ with
      | nil => simp at hlen
      | cons b t₂ =>
          cases t with
          | nil =>
              cases t₂ with
              | nil =>
                  rw [joinNL_single, joinNL_single] at heq
                  rw [heq]
              | cons c cs => simp at hlen
          | cons c cs =>
              cases t₂ with
              | nil => simp at hlen
              | cons d ds =>
                  rw [joinNL_cons₂, joinNL_cons₂] at heq
                  have hd := congrArg String.data heq
                  simp only [String.data_append] at hd
                  rw [append_nl_regroup, append_nl_regroup] at hd
                  have h1a : '\n' ∉ a.data := h1 a (List.mem_cons_self a _)
                  have h2b : '\n' ∉ b.data := h2 b (List.mem_cons_self b _)
                  obtain ⟨hab, ht⟩ := sep_split '\n' _ _ _ _ h1a h2b hd
                  have htail : joinNL (c :: cs) = joinNL (d :: ds) := String.ext ht
                  have hlen' : (c :: cs).length = (d :: ds).length := by
                    simpa using hlen
                  have hrec := ih (d :: ds) hlen'
                    (fun x hx => h1 x (List.mem_cons_of_mem _ hx))
                    (fun x hx => h2 x (List.mem_cons_of_mem _ hx)) htail
                  rw [String.ext hab, hrec]

/-- Stable insertion permutes. -/
theorem insertFileSorted_perm (f : FileInfo) :
    ∀ l : List FileInfo, (insertFileSorted f l).Perm (f :: l) := by
  intro l
  induction l with
  | nil => exact List.Perm.refl _
  | cons g t ih =>
      unfold insertFileSorted
      by_cases hc : strLower f.path < strLower g.path
      · rw [if_pos hc]
      · rw [if_neg hc]
        exact (ih.cons g).trans (List.Perm.swap f g t)

/-- The insertion-sort fold permutes the accumulator and the input. -/
theorem sortFiles_foldl_perm :
    ∀ (l acc : List FileInfo),
      (l.foldl (fun acc f => insertFileSorted f acc) acc).Perm (acc ++ l) := by
  intro l
  induction l with
  | nil => intro acc; simp
  | cons f t ih =>
      intro acc
      simp only [List.foldl_cons]
      have h1 := ih (insertFileSorted f acc)
      have h2 : (insertFileSorted f acc ++ t).Perm ((f :: acc) ++ t) :=
        List.Perm.append_right t (insertFileSorted_perm f acc)
      exact (h1.trans h2).trans List.perm_middle.symm

/-- `sortFiles` permutes its input. -/
theorem sortFiles_perm (l : List FileInfo) : (sortFiles l).Perm l := by
  have h := sortFiles_foldl_perm l []
  simpa [sortFiles] using h

/-- `filePart` images determine file lists elementwise. -/
theorem map_filePart_inj :
    ∀ (l₁ l₂ : List FileInfo), l₁.map filePart = l₂.map filePart → l₁ = l₂ := by
  intro l₁
  induction l₁ with
  | nil =>
      intro l₂ h
      cases l₂ with
      | nil => rfl
      | cons b t => simp at h
  | cons a t ih =>
      intro l₂ h
      cases l₂ with
      | nil => simp at h
      | cons b t₂ =>
          simp only [List.map_cons, List.cons.injEq] at h
          rw [filePart_inj a b h.1, ih t₂ h.2]

/-- For input sets of equal size whose resolved paths are newline-free, an
equal signature input forces the file sets to be permutations of each
other: the per-file stat lines are recovered unambiguously from the joined
string. -/
theorem signature_input_files_inj (files₁ files₂ : List FileInfo)
    (s u : Option String) (hlen : files₁.length = files₂.length)
    (h1 : ∀ g ∈ files₁, charFree '\n' g.path)
    (h2 : ∀ g ∈ files₂, charFree '\n' g.path)
    (heq : signature_input files₁ s u = signature_input files₂ s u) :
    files₁.Perm files₂ := by
  by_cases hnil : files₁ = []
  · subst hnil
    have h0 : files₂ = [] := by
      cases files₂ with
      | nil => rfl
      | cons g t => simp at hlen
    rw [h0]
  · have hnil₂ : files₂ ≠ [] := by
      intro hc
      apply hnil
      rw [hc] at hlen
      simp only [List.length_nil] at hlen
      exact List.length_eq_zero.mp hlen
    have hl₁ : ((sortFiles files₁).map filePart).length = files₁.length := by
      rw [List.length_map, (sortFiles_perm files₁).length_eq]
    have hl₂ : ((sortFiles files₂).map filePart).length = files₂.length := by
      rw [List.length_map, (sortFiles_perm files₂).length_eq]
    have hm₁ : (sortFiles files₁).map filePart ≠ [] := by
      intro hc
      rw [hc] at hl₁
      simp only [List.length_nil] at hl₁
      exact hnil (List.length_eq_zero.mp hl₁.symm)
    have hm₂ : (sortFiles files₂).map filePart ≠ [] := by
      intro hc
      rw [hc] at hl₂
      simp only [List.length_nil] at hl₂
      exact hnil₂ (List.length_eq_zero.mp hl₂.symm)
    obtain ⟨q₁, qs₁, hq₁⟩ := List.exists_cons_of_ne_nil hm₁
    obtain ⟨q₂, qs₂, hq₂⟩ := List.exists_cons_of_ne_nil hm₂
    unfold signature_input at heq
    rw [hq₁, hq₂] at heq
    simp only [joinNL_cons₂] at heq
    have hd := congrArg String.data heq
    simp only [String.data_append] at hd
    have hstep₁ := List.append_cancel_left hd
    have hstep₂ := List.append_cancel_left hstep₁
    have hjoin : joinNL ((sortFiles files₁).map filePart) =
        joinNL ((sortFiles files₂).map filePart) := by
      rw [hq₁, hq₂]
      exact String.ext hstep₂
    have hlen' : ((sortFiles files₁).map filePart).length =
        ((sortFiles files₂).map filePart).length := by
      rw [hl₁, hl₂]
      exact hlen
    have hnf₁ : ∀ x ∈ (sortFiles files₁).map filePart, charFree '\n' x := by
      intro x hx
      rcases List.mem_map.mp hx with ⟨g, hg, rfl⟩
      exact filePart_no_nl g (h1 g ((sortFiles_perm files₁).mem_iff.mp hg))
    have hnf₂ : ∀ x ∈ (sortFiles files₂).map filePart, charFree '\n' x := by
      intro x hx
      rcases List.mem_map.mp hx with ⟨g, hg, rfl⟩
      exact filePart_no_nl g (h2 g ((sortFiles_perm files₂).mem_iff.mp hg))
    have hPeq := joinNL_inj_len _ _ hlen' hnf₁ hnf₂ hjoin
    have hsorted : sortFiles files₁ = sortFiles files₂ := map_filePart_inj _ _ hPeq
    have hperm₂ : (sortFiles files₁).Perm files₂ := by
      rw [hsorted]
      exact sortFiles_perm files₂
    exact (sortFiles_perm files₁).symm.trans hperm₂

/-- C6: resume correctness and fingerprint sensitivity, with the MD5 digest
modelled as an arbitrary injective function `h` (collision resistance).
(1) When the stored signature matches the current one, the submitted tail is
exactly the records at index ≥ k of the working set.  (2)–(3) Changing the
(newline-free) `since` or `until` filter string changes the signature, so
the stored offset is invalidated and the effective starting offset is 0.
(4) In any input set, replacing one file by a file with a different
resolved path, size or modification time (resolved paths newline-free, as
filesystem paths are) changes the signature, so the stored offset is
likewise invalidated. -/
theorem resume_fingerprint_correct (h : String → String)
    (hinj : Function.Injective h) :
    (∀ (k : Nat) (files : List FileInfo) (s u : Option String)
        (unique : List Entry),
        submission_tail (some ⟨dataset_signature h files s u, k⟩)
            (dataset_signature h files s u) unique = unique.drop k ∧
        ∀ e ∈ unique.drop k, ∃ j, k ≤ j ∧ unique.get? j = some e) ∧
    (∀ (files : List FileInfo) (s₁ s₂ u : Option String) (k : Nat),
        charFree '\n' (s₁.getD "") → charFree '\n' (s₂.getD "") →
        s₁.getD "" ≠ s₂.getD "" →
        resume_offset_of (some ⟨dataset_signature h files s₁ u, k⟩)
          (dataset_signature h files s₂ u) = 0) ∧
    (∀ (files : List FileInfo) (s u₁ u₂ : Option String) (k : Nat),
        charFree '\n' (u₁.getD "") → charFree '\n' (u₂.getD "") →
        u₁.getD "" ≠ u₂.getD "" →
        resume_offset_of (some ⟨dataset_signature h files s u₁, k⟩)
          (dataset_signature h files s u₂) = 0) ∧
    (∀ (pre post : List FileInfo) (f₁ f₂ : FileInfo) (s u : Option String)
        (k : Nat),
        (∀ g ∈ pre ++ f₁ :: post, charFree '\n' g.path) →
        (∀ g ∈ pre ++ f₂ :: post, charFree '\n' g.path) →
        f₁ ≠ f₂ →
        resume_offset_of
          (some ⟨dataset_signature h (pre ++ f₁ :: post) s u, k⟩)
          (dataset_signature h (pre ++ f₂ :: post) s u) = 0) := by
  refine ⟨?_, ?_, ?_, ?_⟩
  · intro k files s u unique
    constructor
    · simp [submission_tail, resume_offset_of]
    · intro e he
      rcases List.mem_iff_get?.mp he with ⟨n, hn⟩
      refine ⟨k + n, by omega, ?_⟩
      rw [List.get?_eq_getElem?, ← List.getElem?_drop, ← List.get?_eq_getElem?]
      exact hn
  · intro files s₁ s₂ u k h1 h2 hne
    have hsig : dataset_signature h files s₁ u ≠ dataset_signature h files s₂ u := by
      intro hc
      exact hne (signature_input_since_inj files s₁ s₂ u h1 h2 (hinj hc))
    simp only [resume_offset_of]
    rw [if_neg hsig]
  · intro files s u₁ u₂ k h1 h2 hne
    have hsig : dataset_signature h files s u₁ ≠ dataset_signature h files s u₂ := by
      intro hc
      exact hne (signature_input_until_inj files s u₁ u₂ h1 h2 (hinj hc))
    simp only [resume_offset_of]
    rw [if_neg hsig]
  · intro pre post f₁ f₂ s u k hnf₁ hnf₂ hne
    have hsig : dataset_signature h (pre ++ f₁ :: post) s u ≠
        dataset_signature h (pre ++ f₂ :: post) s u := by
      intro hc
      have hperm := signature_input_files_inj (pre ++ f₁ :: post)
        (pre ++ f₂ :: post) s u (by simp) hnf₁ hnf₂ (hinj hc)
      have hcount := hperm.count_eq f₁
      rw [List.count_append, List.count_append, List.count_cons_self,
        List.count_cons_of_ne hne] at hcount
      omega
    simp only [resume_offset_of]
    rw [if_neg hsig]

/-- Witness for C6 with the identity digest (injective) at concrete inputs:
a matching signature resumes at the stored offset 2 (only the last record
of three is submitted); changing `since`, changing `until`, and changing
the modification time of one file inside a two-file input set each force
the effective offset to 0. -/
theorem resume_fingerprint_correct_witness :
    submission_tail
        (some ⟨dataset_signature id [⟨"/a", 3, 7⟩] none none, 2⟩)
        (dataset_signature id [⟨"/a", 3, 7⟩] none none)
        [blankEntry, scenarioEntry, offlineZeroEntry] =
      List.drop 2 [blankEntry, scenarioEntry, offlineZeroEntry] ∧
    resume_offset_of
        (some ⟨dataset_signature id [⟨"/a", 3, 7⟩] (some "2024-02-01") none, 5⟩)
        (dataset_signature id [⟨"/a", 3, 7⟩] (some "2024-02-02") none) = 0 ∧
    resume_offset_of
        (some ⟨dataset_signature id [⟨"/a", 3, 7⟩] none (some "2024-03-01"), 5⟩)
        (dataset_signature id [⟨"/a", 3, 7⟩] none (some "2024-03-02")) = 0 ∧
    resume_offset_of
        (some ⟨dataset_signature id [⟨"/b", 1, 2⟩, ⟨"/a", 3, 7⟩] none none, 5⟩)
        (dataset_signature id [⟨"/b", 1, 2⟩, ⟨"/a", 3, 8⟩] none none) = 0 :=
  ⟨((resume_fingerprint_correct id (fun _ _ hh => hh)).1 2 [⟨"/a", 3, 7⟩]
      none none [blankEntry, scenarioEntry, offlineZeroEntry]).1,
   (resume_fingerprint_correct id (fun _ _ hh => hh)).2.1 [⟨"/a", 3, 7⟩]
      (some "2024-02-01") (some "2024-02-02") none 5 (by decide) (by decide)
      (by decide),
   (resume_fingerprint_correct id (fun _ _ hh => hh)).2.2.1 [⟨"/a", 3, 7⟩]
      none (some "2024-03-01") (some "2024-03-02") 5 (by decide) (by decide)
      (by decide),
   (resume_fingerprint_correct id (fun _ _ hh => hh)).2.2.2 [⟨"/b", 1, 2⟩] []
      ⟨"/a", 3, 7⟩ ⟨"/a", 3, 8⟩ none none 5 (by decide) (by decide)
      (by decide)⟩
